import Mathlib

/-!
Verification of the Amsterdam/authz OAuth 2.0 authorization server core.

This file shallowly embeds the Go sources and proves/refutes the frozen
claims about them.  The embedding conventions:

* Go strings are Lean `String` (or `List Char` where character-level
  processing matters), Go byte slices are `List Nat` with every element
  `< 256` where it matters.
* Go maps are association lists with `alookup` (first match) semantics;
  Go map assignment is `ainsert` (replace-or-prepend).
* Wall-clock time (`time.Time`, `time.Duration`) is `Nat`; `time.Now()`
  values are passed in explicitly.
* Fallible Go functions return `Except String` mirroring the `error`
  results; randomized values (jti UUIDs, ECDSA nonces) are passed in as
  explicit parameters or supplied by an abstract `CryptoModel`.
-/

deriving instance DecidableEq for Except

/-! ## Association-list model of Go maps -/

/-- `alookup l k` models a read `l[k]` of a Go map. -/
def alookup {α : Type} : List (String × α) → String → Option α
  | [], _ => none
  | (k', v) :: t, k => if k' = k then some v else alookup t k

/-- `aerase l k` models `delete(l, k)` on a Go map. -/
def aerase {α : Type} : List (String × α) → String → List (String × α)
  | [], _ => []
  | (k', v) :: t, k => if k' = k then aerase t k else (k', v) :: aerase t k

/-- `ainsert l k v` models the Go map assignment `l[k] = v`. -/
def ainsert {α : Type} (l : List (String × α)) (k : String) (v : α) :
    List (String × α) :=
  (k, v) :: aerase l k

/-! ## In-process state store (`stateMap`, oauth2 package)

Embeds the `stateMap` type and its `Persist`/`Restore` methods.  The Go
methods guard the whole read-then-delete composite with a mutex; the
functional embedding makes each call a single atomic step on the state. -/

/-- The `stateMap` struct: `values map[string]string` and
`expiries map[string]time.Time`. -/
structure StateMap where
  values : List (String × String)
  expiries : List (String × Nat)

/-- The empty state map produced by `newStateMap()`. -/
def newStateMap : StateMap := ⟨[], []⟩

/-- `stateMap.Persist(key, value, lifetime)` evaluated at wall-clock time
`now`: stores the value and records the deadline `now + lifetime`
(Go: `exp := time.Now().Add(lifetime)`). -/
def StateMap.Persist (s : StateMap) (key value : String) (lifetime now : Nat) :
    StateMap :=
  { values := ainsert s.values key value
    expiries := ainsert s.expiries key (now + lifetime) }

/-- The not-found error `fmt.Errorf("key %s not found", key)`. -/
def keyNotFound (key : String) : String := "key " ++ key ++ " not found"

/-- `stateMap.Restore(key)` evaluated at wall-clock time `now`.  Looks up
both maps, deletes the key from both maps whenever present, then fails
with the not-found error when the value or expiry was missing or
`time.Now().After(exp)` (strictly past the deadline). -/
def StateMap.Restore (s : StateMap) (key : String) (now : Nat) :
    Except String String × StateMap :=
  let val := alookup s.values key
  let exp := alookup s.expiries key
  let s' : StateMap :=
    { values := aerase s.values key, expiries := aerase s.expiries key }
  match val, exp with
  | some v, some e =>
      (if e < now then Except.error (keyNotFound key) else Except.ok v, s')
  | some _, none => (Except.error (keyNotFound key), s')
  | none, _ => (Except.error (keyNotFound key), s')

/-! ## Callback scope reduction (`handler.serveIDPCallback`, oauth2 package)

Embeds the granted-scope computation of the callback handler: starting
from `grantedScopes := []string{}`, when the restored state carries at
least one scope the handler calls `h.authz.ScopeSetFor(user)` (a 500 on
error) and keeps, in order, every requested scope the user's scope set
validates.  The same `grantedScopes` list is then passed both to
`accessTokenEnc.Encode` and to `implicitResponse`. -/

/-- Outcome of the scope-reduction section of `serveIDPCallback`:
either HTTP 500 (`w.WriteHeader(http.StatusInternalServerError)`) or
continuation with the scope list minted into the access token and the
scope list placed in the success-redirect fragment. -/
inductive CallbackScopeOutcome
  | internalServerError
  | success (tokenScopes fragmentScopes : List String)
deriving DecidableEq

/-- The `for _, scope := range state.Scope` append loop of
`serveIDPCallback`. -/
def grantedScopesLoop (valid : String → Bool) (stateScope : List String) :
    List String :=
  stateScope.foldl (fun acc scope => if valid scope then acc ++ [scope] else acc) []

/-- The scope-reduction step of `serveIDPCallback`. `scopeSetFor` is the
result of `h.authz.ScopeSetFor(user)`: either an error or the user's
scope set, as the membership test backing its `ValidScope` method. -/
def serveIDPCallbackScopes (scopeSetFor : Except String (String → Bool))
    (stateScope : List String) : CallbackScopeOutcome :=
  let grantedScopes : List String := []
  if 0 < stateScope.length then
    match scopeSetFor with
    | Except.error _ => CallbackScopeOutcome.internalServerError
    | Except.ok valid =>
        let granted := grantedScopesLoop valid stateScope
        CallbackScopeOutcome.success granted granted
  else
    CallbackScopeOutcome.success grantedScopes grantedScopes

/-! ## Redirect URI matching (`handler.serveAuthorizationRequest`)

Embeds the `redirect_uri` section of the authorize handler.  URIs and
registered patterns are `List Char` (Go strings).  The handler leaves
`authzState.RedirectURI` as the empty string when nothing matched and
answers 400 "missing or invalid redirect_uri" exactly when the field is
still empty afterwards. -/

/-- `strings.HasPrefix s pre`: does `s` start with `pre`? -/
def strHasPre : List Char → List Char → Bool
  | [], _ => true
  | _ :: _, [] => false
  | a :: pre, b :: s => a == b && strHasPre pre s

/-- `strings.HasSuffix(p, "*")`: does the pattern end in a literal star? -/
def hasStarSuffix (p : List Char) : Bool :=
  p.getLast? == some '*'

/-- One registered pattern matched against the supplied URI: a pattern
ending in `*` matches when the URI starts with the pattern minus the
final star (`strings.TrimSuffix(p, "*")`), any other pattern matches on
exact equality. -/
def redirectMatches (p uri : List Char) : Bool :=
  if hasStarSuffix p then strHasPre p.dropLast uri else uri == p

/-- The `for _, allowedRedirectURI := range client.Redirects` loop: the
first matching pattern sets `authzState.RedirectURI` (to the supplied
URI on a wildcard match, to the — equal — pattern on an exact match);
no match leaves the empty string. -/
def redirectLoop (redirects : List (List Char)) (uri : List Char) : List Char :=
  match redirects with
  | [] => []
  | p :: rest =>
      if hasStarSuffix p then
        if strHasPre p.dropLast uri then uri else redirectLoop rest uri
      else
        if uri == p then p else redirectLoop rest uri

/-- Outcome of the `redirect_uri` section: 400 with body
"missing or invalid redirect_uri", or continuation with the selected
redirect URI. -/
inductive RedirectOutcome
  | badRequest (body : String)
  | selected (uri : List Char)
deriving DecidableEq

/-- The full `redirect_uri` section of `serveAuthorizationRequest`:
when the query parameter is present run the matching loop, otherwise
fall back to the single registered redirect when there is exactly one;
a still-empty `RedirectURI` yields the 400 response. -/
def serveRedirectURI (redirects : List (List Char))
    (requested : Option (List Char)) : RedirectOutcome :=
  let chosen : List Char :=
    match requested with
    | some uri => redirectLoop redirects uri
    | none => if redirects.length = 1 then redirects.headI else []
  if chosen = [] then RedirectOutcome.badRequest "missing or invalid redirect_uri"
  else RedirectOutcome.selected chosen

/-! ## Access-token claims (`accessTokenEncoder.Encode`, oauth2 package)

Embeds the claim-set construction of `accessTokenEncoder.Encode`.  The
encoder configuration (`Issuer`, `Lifetime`, `KeyID`) is explicit; the
wall-clock second `now` (`time.Now().Unix()`) and the freshly generated
random UUID string `jti` (`uuid.NewRandom()`) are parameters. -/

/-- The `accessTokenPayload` struct (JSON claim names in comments):
`iss`, `sub`, `iat`, `nbf`, `exp`, `jti`, `scopes`. -/
structure AccessTokenPayload where
  Issuer : String
  Subject : String
  IssuedAt : Int
  NotBefore : Int
  ExpiresAt : Int
  JWTId : String
  Scopes : List String
deriving DecidableEq

/-- The payload value built by `accessTokenEncoder.Encode(subject, scopes)`
with configured issuer and lifetime, at clock second `now` and with the
generated UUID `jti`. -/
def accessTokenEncoderPayload (issuer : String) (lifetime : Int)
    (subject : String) (scopes : List String) (now : Int) (jti : String) :
    AccessTokenPayload :=
  { Issuer := issuer
    Subject := subject
    IssuedAt := now
    NotBefore := now - 10
    ExpiresAt := now + lifetime
    JWTId := jti
    Scopes := scopes }

/-! ## Base64 (package `encoding/base64`)

`b64UrlEncode`/`b64UrlDecode` model `base64.RawURLEncoding` (URL
alphabet, no padding) applied to byte slices (`List Nat`, bytes < 256);
`b64PadUrlDecode` models `base64.URLEncoding.DecodeString` (URL
alphabet, mandatory padding).  Go's default decoders do not reject
non-zero trailing bits, and neither do these. -/

/-- Character of the URL-safe base64 alphabet for a 6-bit group. -/
def b64Char (n : Nat) : Char :=
  if n < 26 then Char.ofNat (65 + n)
  else if n < 52 then Char.ofNat (97 + (n - 26))
  else if n < 62 then Char.ofNat (48 + (n - 52))
  else if n = 62 then '-'
  else '_'

/-- 6-bit value of a URL-safe base64 alphabet character. -/
def b64CharVal (c : Char) : Option Nat :=
  if 65 ≤ c.toNat ∧ c.toNat ≤ 90 then some (c.toNat - 65)
  else if 97 ≤ c.toNat ∧ c.toNat ≤ 122 then some (c.toNat - 97 + 26)
  else if 48 ≤ c.toNat ∧ c.toNat ≤ 57 then some (c.toNat - 48 + 52)
  else if c = '-' then some 62
  else if c = '_' then some 63
  else none

/-- `base64.RawURLEncoding.EncodeToString. -/
def b64UrlEncode : List Nat → List Char
  | [] => []
  | [b0] => [b64Char (b0 / 4), b64Char (b0 % 4 * 16)]
  | [b0, b1] =>
      [b64Char (b0 / 4), b64Char (b0 % 4 * 16 + b1 / 16), b64Char (b1 % 16 * 4)]
  | b0 :: b1 :: b2 :: rest =>
      b64Char (b0 / 4) :: b64Char (b0 % 4 * 16 + b1 / 16) ::
        b64Char (b1 % 16 * 4 + b2 / 64) :: b64Char (b2 % 64) :: b64UrlEncode rest

/-- `base64.RawURLEncoding` decoding (no padding accepted). -/
def b64UrlDecode : List Char → Option (List Nat)
  | [] => some []
  | [_] => none
  | [c0, c1] =>
      match b64CharVal c0, b64CharVal c1 with
      | some v0, some v1 => some [v0 * 4 + v1 / 16]
      | _, _ => none
  | [c0, c1, c2] =>
      match b64CharVal c0, b64CharVal c1, b64CharVal c2 with
      | some v0, some v1, some v2 =>
          some [v0 * 4 + v1 / 16, v1 % 16 * 16 + v2 / 4]
      | _, _, _ => none
  | c0 :: c1 :: c2 :: c3 :: rest =>
      match b64CharVal c0, b64CharVal c1, b64CharVal c2, b64CharVal c3,
          b64UrlDecode rest with
      | some v0, some v1, some v2, some v3, some tail =>
          some ((v0 * 4 + v1 / 16) :: (v1 % 16 * 16 + v2 / 4) ::
            (v2 % 4 * 64 + v3) :: tail)
      | _, _, _, _, _ => none

/-- `base64.URLEncoding.DecodeString` (padded; used for `k`/`x`/`y`/`d`
JWK fields). -/
def b64PadUrlDecode : List Char → Option (List Nat)
  | [] => some []
  | c0 :: c1 :: c2 :: c3 :: rest =>
      if rest.isEmpty then
        if c3 = '=' then
          if c2 = '=' then
            match b64CharVal c0, b64CharVal c1 with
            | some v0, some v1 => some [v0 * 4 + v1 / 16]
            | _, _ => none
          else
            match b64CharVal c0, b64CharVal c1, b64CharVal c2 with
            | some v0, some v1, some v2 =>
                some [v0 * 4 + v1 / 16, v1 % 16 * 16 + v2 / 4]
            | _, _, _ => none
        else
          match b64CharVal c0, b64CharVal c1, b64CharVal c2, b64CharVal c3 with
          | some v0, some v1, some v2, some v3 =>
              some [v0 * 4 + v1 / 16, v1 % 16 * 16 + v2 / 4, v2 % 4 * 64 + v3]
          | _, _, _, _ => none
      else
        match b64CharVal c0, b64CharVal c1, b64CharVal c2, b64CharVal c3,
            b64PadUrlDecode rest with
        | some v0, some v1, some v2, some v3, some tail =>
            some ((v0 * 4 + v1 / 16) :: (v1 % 16 * 16 + v2 / 4) ::
              (v2 % 4 * 64 + v3) :: tail)
        | _, _, _, _, _ => none
  | _ => none

/-- `strings.Split(data, ".")`. -/
def splitOnDot : List Char → List (List Char)
  | [] => [[]]
  | c :: rest =>
      if c = '.' then [] :: splitOnDot rest
      else
        match splitOnDot rest with
        | [] => [[c]]
        | h :: t => (c :: h) :: t

/-! ## UTF-8 (Go string ↔ `[]byte` conversion) -/

/-- UTF-8 encoding of one character. -/
def utf8EncodeChar (c : Char) : List Nat :=
  if c.toNat < 128 then [c.toNat]
  else if c.toNat < 2048 then [192 + c.toNat / 64, 128 + c.toNat % 64]
  else if c.toNat < 65536 then
    [224 + c.toNat / 4096, 128 + c.toNat / 64 % 64, 128 + c.toNat % 64]
  else
    [240 + c.toNat / 262144, 128 + c.toNat / 4096 % 64, 128 + c.toNat / 64 % 64,
      128 + c.toNat % 64]

/-- UTF-8 encoding of a string (Go `[]byte(s)` of marshalled JSON). -/
def utf8Encode (s : List Char) : List Nat :=
  (s.map utf8EncodeChar).flatten

/-! UTF-8 decoding: one function per encoded length, in mutual
recursion with the main loop. -/

mutual

def utf8Decode (l : List Nat) : Option (List Char) :=
  match l with
  | [] => some []
  | b :: rest =>
      if b < 128 then (utf8Decode rest).map (fun cs => Char.ofNat b :: cs)
      else if b < 192 then none
      else if b < 224 then utf8DecodeTail2 b rest
      else if b < 240 then utf8DecodeTail3 b rest
      else if b < 248 then utf8DecodeTail4 b rest
      else none

def utf8DecodeTail2 (b : Nat) (l : List Nat) : Option (List Char) :=
  match l with
  | b1 :: rest =>
      if 128 ≤ b1 ∧ b1 < 192 then
        if 128 ≤ (b - 192) * 64 + (b1 - 128) then
          (utf8Decode rest).map
            (fun cs => Char.ofNat ((b - 192) * 64 + (b1 - 128)) :: cs)
        else none
      else none
  | [] => none

def utf8DecodeTail3 (b : Nat) (l : List Nat) : Option (List Char) :=
  match l with
  | b1 :: b2 :: rest =>
      if (128 ≤ b1 ∧ b1 < 192) ∧ (128 ≤ b2 ∧ b2 < 192) then
        if 2048 ≤ (b - 224) * 4096 + (b1 - 128) * 64 + (b2 - 128) ∧
            ((b - 224) * 4096 + (b1 - 128) * 64 + (b2 - 128) < 55296 ∨
              57343 < (b - 224) * 4096 + (b1 - 128) * 64 + (b2 - 128)) then
          (utf8Decode rest).map
            (fun cs =>
              Char.ofNat ((b - 224) * 4096 + (b1 - 128) * 64 + (b2 - 128)) :: cs)
        else none
      else none
  | _ => none

def utf8DecodeTail4 (b : Nat) (l : List Nat) : Option (List Char) :=
  match l with
  | b1 :: b2 :: b3 :: rest =>
      if (128 ≤ b1 ∧ b1 < 192) ∧ (128 ≤ b2 ∧ b2 < 192) ∧
          (128 ≤ b3 ∧ b3 < 192) then
        if 65536 ≤ (b - 240) * 262144 + (b1 - 128) * 4096 + (b2 - 128) * 64 +
              (b3 - 128) ∧
            (b - 240) * 262144 + (b1 - 128) * 4096 + (b2 - 128) * 64 +
              (b3 - 128) < 1114112 then
          (utf8Decode rest).map
            (fun cs =>
              Char.ofNat ((b - 240) * 262144 + (b1 - 128) * 4096 +
                (b2 - 128) * 64 + (b3 - 128)) :: cs)
        else none
      else none
  | _ => none

end

/-! ## JWT header JSON (`encoding/json` on the `header` struct)

`json.Marshal(&header{Alg: alg, Kid: kid})` always produces
`{"alg":<str>,"kid":<str>}` with Go's default (HTML-escaping) string
escaper and no whitespace.  `parseHeaderBytes` models `json.Unmarshal`
restricted to exactly that shape. -/

/-- The double-quote character. -/
def chQuote : Char := Char.ofNat 34

/-- The backslash character. -/
def chBackslash : Char := Char.ofNat 92

/-- The left-brace character. -/
def chLBrace : Char := Char.ofNat 123

/-- The right-brace character. -/
def chRBrace : Char := Char.ofNat 125

/-- Lowercase hex digit, as in Go's `encoding/json` hex table. -/
def hexDigit (n : Nat) : Char :=
  if n < 10 then Char.ofNat (48 + n) else Char.ofNat (87 + n)

/-- Value of a lowercase hex digit. -/
def hexVal (c : Char) : Option Nat :=
  if 48 ≤ c.toNat ∧ c.toNat ≤ 57 then some (c.toNat - 48)
  else if 97 ≤ c.toNat ∧ c.toNat ≤ 102 then some (c.toNat - 87)
  else none

/-- A `\uXXXX` escape sequence. -/
def uEscape (n : Nat) : List Char :=
  [chBackslash, 'u', hexDigit (n / 4096 % 16), hexDigit (n / 256 % 16),
    hexDigit (n / 16 % 16), hexDigit (n % 16)]

/-- Go `encoding/json` escaping of one character of a string value
(default encoder, HTML escaping on). -/
def escapeJSONChar (c : Char) : List Char :=
  if c = chQuote then [chBackslash, chQuote]
  else if c = chBackslash then [chBackslash, chBackslash]
  else if c = Char.ofNat 10 then [chBackslash, 'n']
  else if c = Char.ofNat 13 then [chBackslash, 'r']
  else if c = Char.ofNat 9 then [chBackslash, 't']
  else if c.toNat < 32 ∨ c = '<' ∨ c = '>' ∨ c = '&' then uEscape c.toNat
  else if c.toNat = 8232 ∨ c.toNat = 8233 then uEscape c.toNat
  else [c]

/-- Go `encoding/json` escaping of a string value. -/
def escapeJSON (s : List Char) : List Char :=
  (s.map escapeJSONChar).flatten

/-- JSON string-body parser: consumes characters up to and including the
closing quote, undoing the escapes `escapeJSONChar` can produce, and
returns the decoded body together with the rest of the input. -/
def parseJSONString : List Char → Option (List Char × List Char)
  | [] => none
  | c :: rest =>
      if c = chQuote then some ([], rest)
      else if c = chBackslash then
        match rest with
        | [] => none
        | e :: rest2 =>
            if e = chQuote then
              (parseJSONString rest2).map (fun p => (chQuote :: p.1, p.2))
            else if e = chBackslash then
              (parseJSONString rest2).map (fun p => (chBackslash :: p.1, p.2))
            else if e = 'n' then
              (parseJSONString rest2).map (fun p => (Char.ofNat 10 :: p.1, p.2))
            else if e = 'r' then
              (parseJSONString rest2).map (fun p => (Char.ofNat 13 :: p.1, p.2))
            else if e = 't' then
              (parseJSONString rest2).map (fun p => (Char.ofNat 9 :: p.1, p.2))
            else if e = 'u' then
              match rest2 with
              | h1 :: h2 :: h3 :: h4 :: rest3 =>
                  match hexVal h1, hexVal h2, hexVal h3, hexVal h4 with
                  | some v1, some v2, some v3, some v4 =>
                      (parseJSONString rest3).map
                        (fun p =>
                          (Char.ofNat (v1 * 4096 + v2 * 256 + v3 * 16 + v4) :: p.1,
                            p.2))
                  | _, _, _, _ => none
              | _ => none
            else none
      else (parseJSONString rest).map (fun p => (c :: p.1, p.2))

/-- The literal `{"alg":"` opening the marshalled header. -/
def hdrPre : List Char :=
  [chLBrace, chQuote, 'a', 'l', 'g', chQuote, ':', chQuote]

/-- The literal `","kid":"` between the two header fields. -/
def hdrMid : List Char :=
  [',', chQuote, 'k', 'i', 'd', chQuote, ':', chQuote]

/-- The characters of `json.Marshal(&header{Alg: alg, Kid: kid})`. -/
def jsonHeaderChars (alg kid : List Char) : List Char :=
  hdrPre ++ escapeJSON alg ++ chQuote ::
    (hdrMid ++ escapeJSON kid ++ [chQuote, chRBrace])

/-- Consume an expected literal from the input. -/
def dropLit : List Char → List Char → Option (List Char)
  | [], l => some l
  | _ :: _, [] => none
  | a :: lit, b :: l => if a = b then dropLit lit l else none

/-- Parser for the exact header shape `{"alg":<str>,"kid":<str>}`,
returning `(alg, kid)`. -/
def parseHeaderChars (l : List Char) : Option (List Char × List Char) := do
  let r1 ← dropLit hdrPre l
  let (alg, r2) ← parseJSONString r1
  let r3 ← dropLit hdrMid r2
  let (kid, r4) ← parseJSONString r3
  if r4 = [chRBrace] then some (alg, kid) else none

/-- `json.Unmarshal(rawHeader, &header{})`, modelled for the header
bytes this package's `Encode` produces (UTF-8 decode, then the
fixed-shape parser). -/
def parseHeaderBytes (bs : List Nat) : Option (List Char × List Char) := do
  let cs ← utf8Decode bs
  parseHeaderChars cs

/-! ## Big-endian byte strings (`math/big` `Int.Bytes` / `SetBytes`) -/

/-- `big.Int.SetBytes`: big-endian bytes to number. -/
def beNat (bs : List Nat) : Nat :=
  bs.foldl (fun acc b => acc * 256 + b) 0

/-- `big.Int.Bytes`: minimal big-endian bytes of a number (empty for 0). -/
def natBytesBE : Nat → List Nat
  | 0 => []
  | n + 1 => natBytesBE ((n + 1) / 256) ++ [(n + 1) % 256]
decreasing_by exact Nat.div_lt_self (Nat.succ_pos n) (by norm_num)

/-! ## JWK keys, signing and verification (`jose` package) -/

/-- Symmetric JWK algorithms (`HS256/HS384/HS512`). -/
inductive HAlg
  | HS256
  | HS384
  | HS512
deriving DecidableEq

/-- EC curves accepted by `jwkECPub.setParams`. -/
inductive ECCurve
  | P256
  | P384
  | P521
deriving DecidableEq

/-- `jwkSymmetric`: algorithm and raw key bytes. -/
structure SymKeyData where
  alg : HAlg
  key : List Nat
deriving DecidableEq

/-- `jwkECPub`: curve and public point. -/
structure ECPubData where
  curve : ECCurve
  x : Nat
  y : Nat
deriving DecidableEq

/-- `jwkECPriv`: embedded public data and private scalar. -/
structure ECPrivData where
  pub : ECPubData
  d : Nat
deriving DecidableEq

/-- `jwkECPub.setParams`: the fixed signature length per curve
(`SigLength`). -/
def sigLengthOf : ECCurve → Nat
  | ECCurve.P256 => 64
  | ECCurve.P384 => 96
  | ECCurve.P521 => 132

/-- `jwkECPub.setParams`: the algorithm name per curve (`AlgName`). -/
def ecAlgName : ECCurve → String
  | ECCurve.P256 => "ES256"
  | ECCurve.P384 => "ES384"
  | ECCurve.P521 => "ES512"

/-- The `alg` value stored on a symmetric key. -/
def hAlgName : HAlg → String
  | HAlg.HS256 => "HS256"
  | HAlg.HS384 => "HS384"
  | HAlg.HS512 => "HS512"

/-- An entry of the `signers` table (a `jwtSigner`). -/
inductive SignerEntry
  | sym (k : SymKeyData)
  | ec (k : ECPrivData)
deriving DecidableEq

/-- An entry of the `verifiers` table (a `jwtVerifier`). -/
inductive VerifierEntry
  | sym (k : SymKeyData)
  | ec (k : ECPubData)
deriving DecidableEq

/-- Abstract model of the cryptographic primitives the `jose` package
calls out to: `crypto/hmac` (keyed digest over the hash of the signing
input) and `crypto/ecdsa` (`Sign` hashes and returns `(r, s)`; `Verify`
checks them).  The `jose` code treats all three as black boxes. -/
structure CryptoModel where
  hmac : HAlg → List Nat → List Nat → List Nat
  ecSignRS : ECPrivData → List Nat → Nat × Nat
  ecVerify : ECPubData → List Nat → Nat → Nat → Bool

/-- `Algorithm()` of a signer. -/
def signerAlg : SignerEntry → String
  | SignerEntry.sym k => hAlgName k.alg
  | SignerEntry.ec k => ecAlgName k.pub.curve

/-- Go `[]byte(s)` of an ASCII string (the base64 signing input). -/
def strBytes (l : List Char) : List Nat := l.map Char.toNat

/-- Zero-pad a byte string on the left to length `l`
(`copy(fixed[l-len(bytes):], bytes)`). -/
def leftPadZero (l : Nat) (bs : List Nat) : List Nat :=
  List.replicate (l - bs.length) 0 ++ bs

/-- The `R ‖ S` fixed-length signature layout emitted by
`jwkECPriv.Sign` for half-length `l`. -/
def ecSigEncode (l r s : Nat) : List Nat :=
  leftPadZero l (natBytesBE r) ++ leftPadZero l (natBytesBE s)

/-- `jwkECPriv.Sign`: hash and ECDSA-sign the message (via the abstract
`CryptoModel`), then emit `R ‖ S` each left-padded to `SigLength/2`
bytes.  The Go code would panic (`copy` out of range) if `r` or `s`
needed more than the half-length; that case is `none`. -/
def jwkECPrivSign (C : CryptoModel) (k : ECPrivData) (msg : List Nat) :
    Option (List Nat) :=
  let rs := C.ecSignRS k msg
  let l := sigLengthOf k.pub.curve / 2
  if (natBytesBE rs.1).length ≤ l ∧ (natBytesBE rs.2).length ≤ l then
    some (ecSigEncode l rs.1 rs.2)
  else none

/-- `jwtSigner.Sign` dispatch. -/
def signBytes (C : CryptoModel) : SignerEntry → List Nat → Option (List Nat)
  | SignerEntry.sym k, msg => some (C.hmac k.alg k.key msg)
  | SignerEntry.ec k, msg => jwkECPrivSign C k msg

/-- `jwkECPub.Verify`: base64-decode the digest, require the exact
fixed length, split at the half-length into `R` and `S`
(`big.Int.SetBytes`), and ECDSA-verify. -/
def jwkECPubVerify (C : CryptoModel) (k : ECPubData)
    (b64header b64payload b64digest : List Char) : Bool :=
  match b64UrlDecode b64digest with
  | none => false
  | some decoded =>
      if decoded.length = sigLengthOf k.curve then
        let l := sigLengthOf k.curve / 2
        C.ecVerify k (strBytes (b64header ++ '.' :: b64payload))
          (beNat (decoded.take l)) (beNat (decoded.drop l))
      else false

/-- `jwkSymmetric.Verify`: recompute the HMAC over the signing input,
base64-encode it and compare with the given digest
(`subtle.ConstantTimeCompare`, i.e. equality). -/
def jwkSymVerify (C : CryptoModel) (k : SymKeyData)
    (b64header b64payload b64digest : List Char) : Bool :=
  if b64UrlEncode (C.hmac k.alg k.key
      (strBytes (b64header ++ '.' :: b64payload))) = b64digest then
    true
  else false

/-- `jwtVerifier.Verify` dispatch. -/
def verifyB64 (C : CryptoModel) :
    VerifierEntry → List Char → List Char → List Char → Bool
  | VerifierEntry.sym k, h, p, d => jwkSymVerify C k h p d
  | VerifierEntry.ec k, h, p, d => jwkECPubVerify C k h p d

/-- The `JWKSet` struct: signer table, verifier table, insertion-ordered
key ids. -/
structure JWKSetM where
  signers : List (String × SignerEntry)
  verifiers : List (String × VerifierEntry)
  kids : List String
deriving DecidableEq

/-- `JWKSet.Encode(kid, v)` on the already-marshalled payload bytes:
look up the signer, marshal and base64 the header, base64 the payload,
sign `b64header "." b64payload`, and emit the three-part compact JWT. -/
def JWKSetM.Encode (C : CryptoModel) (S : JWKSetM) (kid : String)
    (payload : List Nat) : Except String (List Char) :=
  match alookup S.signers kid with
  | none => Except.error ("Cannot use kid " ++ kid ++ " to encode")
  | some signer =>
      let headerJSON := utf8Encode (jsonHeaderChars (signerAlg signer).data kid.data)
      let b64header := b64UrlEncode headerJSON
      let b64payload := b64UrlEncode payload
      match signBytes C signer (strBytes (b64header ++ '.' :: b64payload)) with
      | none => Except.error "sign failed"
      | some digest =>
          Except.ok (b64header ++ '.' :: b64payload ++ '.' :: b64UrlEncode digest)

/-- `JWKSet.Decode(data, v)` down to the raw payload bytes: split on
dots into exactly three parts, base64-decode and parse the header, look
up the verifier under the header's `kid`, verify, and base64-decode the
payload. -/
def JWKSetM.Decode (C : CryptoModel) (S : JWKSetM) (data : List Char) :
    Except String (List Nat) :=
  match splitOnDot data with
  | [b64header, b64payload, b64digest] =>
      match b64UrlDecode b64header with
      | none => Except.error "illegal base64 data in header"
      | some rawHeader =>
          match parseHeaderBytes rawHeader with
          | none => Except.error "bad header"
          | some (_, kidChars) =>
              let kid : String := String.mk kidChars
              match alookup S.verifiers kid with
              | none =>
                  Except.error ("No key with ID " ++ kid ++
                    " available in keyset for verification")
              | some verifier =>
                  if verifyB64 C verifier b64header b64payload b64digest then
                    match b64UrlDecode b64payload with
                    | none => Except.error "illegal base64 data in payload"
                    | some rawPayload => Except.ok rawPayload
                  else Except.error "Couldn't verify JWT"
  | parts => Except.error ("JWT shoud have 3 parts, has " ++ toString parts.length)

/-! ## `LoadJWKSet` (jose package)

The JWKS document is modelled after `json.Unmarshal`: `none` for
malformed JSON, otherwise the list of keys, each with the JSON fields
the `jose` structs declare (absent string fields are `""`, an absent
`key_ops` is `[]`). -/

/-- One parsed JWK document entry (fields of `jwkData`, `jwkSymmetric`,
`jwkECPub`, `jwkECPriv`). -/
structure JWKInputM where
  kty : String
  keyOps : List String
  kid : String
  alg : String
  k : String
  crv : String
  x : String
  y : String
  d : String
deriving DecidableEq

/-- The `switch jwk.Alg` of `unmarshalJWKSymmetric`. -/
def hAlgOf (s : String) : Option HAlg :=
  if s = "HS256" then some HAlg.HS256
  else if s = "HS384" then some HAlg.HS384
  else if s = "HS512" then some HAlg.HS512
  else none

/-- The `switch j.Curve` of `jwkECPub.setParams`. -/
def curveOf (s : String) : Option ECCurve :=
  if s = "P-256" then some ECCurve.P256
  else if s = "P-384" then some ECCurve.P384
  else if s = "P-521" then some ECCurve.P521
  else none

/-- `unmarshalJWKSymmetric`: algorithm switch, then padded base64
decode of `k`. -/
def unmarshalJWKSymmetricM (j : JWKInputM) : Except String SymKeyData :=
  match hAlgOf j.alg with
  | none => Except.error ("Invalid Alg for symmetric key: " ++ j.alg)
  | some a =>
      match b64PadUrlDecode j.k.data with
      | none => Except.error "illegal base64 data"
      | some kb => Except.ok { alg := a, key := kb }

/-- `unmarshalJWKECPub`: `setParams` (curve switch), then `publicKey()`
(padded base64 decode of `x` and `y`, `big.Int.SetBytes`). -/
def unmarshalJWKECPubM (j : JWKInputM) : Except String ECPubData :=
  match curveOf j.crv with
  | none => Except.error ("Unsupported EC curve: " ++ j.crv)
  | some c =>
      match b64PadUrlDecode j.x.data with
      | none => Except.error "illegal base64 data"
      | some bx =>
          match b64PadUrlDecode j.y.data with
          | none => Except.error "illegal base64 data"
          | some byBytes => Except.ok { curve := c, x := beNat bx, y := beNat byBytes }

/-- `unmarshalJWKECPriv`: `setParams`, then `privateKey()` (padded
base64 decode of `d`, then the public key from `x`/`y`). -/
def unmarshalJWKECPrivM (j : JWKInputM) : Except String ECPrivData :=
  match curveOf j.crv with
  | none => Except.error ("Unsupported EC curve: " ++ j.crv)
  | some _ =>
      match b64PadUrlDecode j.d.data with
      | none => Except.error "illegal base64 data"
      | some bd =>
          match unmarshalJWKECPubM j with
          | Except.error e => Except.error e
          | Except.ok pub => Except.ok { pub := pub, d := beNat bd }

/-- The `for _, op := range jwkParams.KeyOps` loop of the `"EC"` branch
of `LoadJWKSet`: `sign` loads a private key into the signer table,
`verify` a public key into the verifier table, anything else is an
error. -/
def loadECOps (j : JWKInputM) (acc : JWKSetM) :
    List String → Except String JWKSetM
  | [] => Except.ok acc
  | op :: rest =>
      if op = "sign" then
        match unmarshalJWKECPrivM j with
        | Except.error e => Except.error e
        | Except.ok key =>
            loadECOps j
              { acc with signers := ainsert acc.signers j.kid (SignerEntry.ec key) }
              rest
      else if op = "verify" then
        match unmarshalJWKECPubM j with
        | Except.error e => Except.error e
        | Except.ok key =>
            loadECOps j
              { acc with
                verifiers := ainsert acc.verifiers j.kid (VerifierEntry.ec key) }
              rest
      else Except.error ("Unsupported key operation: " ++ op)

/-- The `for _, op := range jwkParams.KeyOps` loop of the `"oct"`
branch of `LoadJWKSet`: `sign` and `verify` populate the tables, any
other operation is silently ignored (the loop has no `else`). -/
def loadOctOps (j : JWKInputM) (key : SymKeyData) (acc : JWKSetM) :
    List String → JWKSetM
  | [] => acc
  | op :: rest =>
      if op = "sign" then
        loadOctOps j key
          { acc with signers := ainsert acc.signers j.kid (SignerEntry.sym key) }
          rest
      else if op = "verify" then
        loadOctOps j key
          { acc with verifiers := ainsert acc.verifiers j.kid (VerifierEntry.sym key) }
          rest
      else loadOctOps j key acc rest

/-- One iteration of the key loop of `LoadJWKSet`: reject an empty
`key_ops` and duplicate key ids, record the key id, then dispatch on
the key type (`EC`, `oct`, otherwise an error). -/
def loadJWK (acc : JWKSetM) (j : JWKInputM) : Except String JWKSetM :=
  if j.keyOps.length = 0 then
    Except.error ("Configuration error: key (kid: " ++ j.kid ++ ") has no key_ops")
  else if j.kid ∈ acc.kids then
    Except.error ("Duplicate key ID in JKWSet: " ++ j.kid)
  else
    let acc' : JWKSetM := { acc with kids := acc.kids ++ [j.kid] }
    if j.kty = "EC" then loadECOps j acc' j.keyOps
    else if j.kty = "oct" then
      match unmarshalJWKSymmetricM j with
      | Except.error e => Except.error e
      | Except.ok key => Except.ok (loadOctOps j key acc' j.keyOps)
    else Except.error "Cannot use key"

/-- The key loop of `LoadJWKSet`. -/
def loadJWKs : List JWKInputM → JWKSetM → Except String JWKSetM
  | [], acc => Except.ok acc
  | j :: rest, acc =>
      match loadJWK acc j with
      | Except.error e => Except.error e
      | Except.ok acc' => loadJWKs rest acc'

/-- `LoadJWKSet(data)`: `none` models malformed JSON
(`json.Unmarshal` failure), otherwise the key loop runs on an initially
empty set. -/
def LoadJWKSet (input : Option (List JWKInputM)) : Except String JWKSetM :=
  match input with
  | none => Except.error "invalid character"
  | some keys => loadJWKs keys ⟨[], [], []⟩

/-! ## Failure conditions of `LoadJWKSet`, spec side (claim C7) -/

/-- A JWK string field that is not valid padded URL-safe base64. -/
def b64FieldBad (s : String) : Bool := (b64PadUrlDecode s.data).isNone

/-- Conditions under which `unmarshalJWKECPub` fails. -/
def ecPubBad (j : JWKInputM) : Bool :=
  (curveOf j.crv).isNone || b64FieldBad j.x || b64FieldBad j.y

/-- Conditions under which `unmarshalJWKECPriv` fails. -/
def ecPrivBad (j : JWKInputM) : Bool :=
  (curveOf j.crv).isNone || b64FieldBad j.d || b64FieldBad j.x || b64FieldBad j.y

/-- Conditions under which `unmarshalJWKSymmetric` fails. -/
def symBad (j : JWKInputM) : Bool :=
  (hAlgOf j.alg).isNone || b64FieldBad j.k

/-- A `key_ops` entry that is neither `sign` nor `verify`. -/
def opUnknown (op : String) : Bool :=
  !(op == "sign" || op == "verify")

/-- All per-key failure conditions of `LoadJWKSet` (everything except
duplicate key ids, which is a cross-key condition). -/
def jwkBad (j : JWKInputM) : Bool :=
  j.keyOps.isEmpty ||
    (if j.kty = "EC" then
      j.keyOps.any opUnknown ||
        (j.keyOps.contains "sign" && ecPrivBad j) ||
        (j.keyOps.contains "verify" && ecPubBad j)
    else if j.kty = "oct" then symBad j
    else true)

/-- Some key id occurs twice in the document (scanned left to right
with the already-seen ids in `seen`). -/
def dupKids (seen : List String) : List JWKInputM → Bool
  | [] => false
  | j :: rest => seen.contains j.kid || dupKids (seen ++ [j.kid]) rest

/-! ## Auxiliary result inspectors and concrete fixtures -/

/-- Is an `Except` an `ok`? -/
def exceptIsOk {ε α : Type} : Except ε α → Bool
  | Except.ok _ => true
  | Except.error _ => false

/-- The `ok` value of an `Except`, when present. -/
def exceptToOption {ε α : Type} : Except ε α → Option α
  | Except.ok a => some a
  | Except.error _ => none

/-- A concrete crypto model used to instantiate the abstract
primitives in counterexamples and witnesses. -/
def cryptoFix : CryptoModel :=
  { hmac := fun _ key msg => key ++ msg
    ecSignRS := fun _ _ => (1, 1)
    ecVerify := fun _ _ _ _ => true }

/-- A JWKS entry that is a symmetric signing-only key:
`{"kty":"oct","key_ops":["sign"],"kid":"1","alg":"HS256","k":""}`. -/
def signOnlyOctKey : JWKInputM :=
  { kty := "oct", keyOps := ["sign"], kid := "1", alg := "HS256", k := ""
    crv := "", x := "", y := "", d := "" }

/-- The key set loaded from the signing-only symmetric key. -/
def signOnlySet : JWKSetM :=
  match LoadJWKSet (some [signOnlyOctKey]) with
  | Except.ok S => S
  | Except.error _ => ⟨[], [], []⟩

/-- A symmetric key present in both tables (key_ops sign and verify). -/
def signVerifyKey : SymKeyData := { alg := HAlg.HS256, key := [7] }

/-- A key set whose kid `1` is both signer and verifier. -/
def signVerifySet : JWKSetM :=
  { signers := [("1", SignerEntry.sym signVerifyKey)]
    verifiers := [("1", VerifierEntry.sym signVerifyKey)]
    kids := ["1"] }

/-- A JWKS entry that is a symmetric key with the unknown operation
`encrypt`: `{"kty":"oct","key_ops":["encrypt"],"kid":"1","alg":"HS256","k":""}`. -/
def encryptOpOctKey : JWKInputM :=
  { kty := "oct", keyOps := ["encrypt"], kid := "1", alg := "HS256", k := ""
    crv := "", x := "", y := "", d := "" }

-- THEOREMS BELOW THIS LINE

/-! ## State store theorems (claims C1, C8, C9) -/

/-- Erasing a key makes its lookup fail. -/
theorem alookup_aerase {α : Type} (l : List (String × α)) (k : String) :
    alookup (aerase l k) k = none := by
  induction l with
  | nil => rfl
  | cons h t ih =>
      obtain ⟨k', v⟩ := h
      by_cases hk : k' = k
      · simpa [aerase, hk] using ih
      · simpa [aerase, alookup, hk] using ih

/-- Inserting a key makes its lookup return the inserted value. -/
theorem alookup_ainsert {α : Type} (l : List (String × α)) (k : String) (v : α) :
    alookup (ainsert l k v) k = some v := by
  simp [ainsert, alookup]

/-- The state returned by `Restore` always has the key erased from both
maps, whatever the outcome. -/
theorem StateMap.Restore_snd (s : StateMap) (key : String) (now : Nat) :
    (StateMap.Restore s key now).2
      = ⟨aerase s.values key, aerase s.expiries key⟩ := by
  unfold StateMap.Restore
  cases alookup s.values key <;> cases alookup s.expiries key <;> simp

/-- Claim C1: single consumption of persisted state.  After any
`Restore` of a key — at any wall-clock time, hence in particular before
the lifetime has elapsed — a second `Restore` of the same key fails
with the not-found error, because the first call deleted the entry in
the same atomic step in which it read it. -/
theorem stateMap_single_consumption (s : StateMap) (key : String)
    (now now' : Nat) :
    (StateMap.Restore (StateMap.Restore s key now).2 key now').1
      = Except.error (keyNotFound key) := by
  rw [StateMap.Restore_snd]
  unfold StateMap.Restore
  simp [alookup_aerase]

/-- Claim C8 (counterexample): the claim says a restore arriving
exactly at the deadline fails, but the code tests
`time.Now().After(exp)` — strictly after — so a restore exactly at the
deadline `persist-time + lifetime` succeeds. -/
theorem stateMap_restore_at_deadline_succeeds :
    (StateMap.Restore (StateMap.Persist newStateMap "k" "v" 60 0) "k" 60).1
      = Except.ok "v" := by decide

/-- Claim C8 (amended): the expiry deadline is `persist-time +
lifetime`; a restore strictly after the deadline fails with the
not-found error, while a restore exactly at the deadline still
succeeds. -/
theorem stateMap_ttl_deadline (s : StateMap) (key value : String)
    (lifetime now₀ now : Nat) :
    (now₀ + lifetime < now →
      (StateMap.Restore (StateMap.Persist s key value lifetime now₀) key now).1
        = Except.error (keyNotFound key)) ∧
    (StateMap.Restore (StateMap.Persist s key value lifetime now₀) key
        (now₀ + lifetime)).1 = Except.ok value := by
  constructor
  · intro h
    unfold StateMap.Persist StateMap.Restore
    simp [alookup_ainsert, h]
  · unfold StateMap.Persist StateMap.Restore
    simp [alookup_ainsert]

/-- Claim C8 (witness for the amended theorem). -/
theorem stateMap_ttl_deadline_witness :
    0 + 60 < 61 ∧
    (StateMap.Restore (StateMap.Persist newStateMap "k" "v" 60 0) "k" 61).1
      = Except.error (keyNotFound "k") :=
  ⟨by norm_num, (stateMap_ttl_deadline newStateMap "k" "v" 60 0 61).1 (by norm_num)⟩

/-- Claim C9: every `Restore` removes the key from both the values map
and the expiries map before returning, whatever the outcome; hence a
later `Restore` of the key fails — unless a new `Persist` of that key
happened in between, after which a `Restore` succeeds again. -/
theorem stateMap_restore_always_deletes (s : StateMap) (key value : String)
    (now now' lifetime n : Nat) :
    alookup (StateMap.Restore s key now).2.values key = none ∧
    alookup (StateMap.Restore s key now).2.expiries key = none ∧
    (StateMap.Restore (StateMap.Restore s key now).2 key now').1
      = Except.error (keyNotFound key) ∧
    (StateMap.Restore
        (StateMap.Persist (StateMap.Restore s key now).2 key value lifetime n)
        key n).1 = Except.ok value := by
  refine ⟨?_, ?_, ?_, ?_⟩
  · rw [StateMap.Restore_snd]; exact alookup_aerase _ _
  · rw [StateMap.Restore_snd]; exact alookup_aerase _ _
  · rw [StateMap.Restore_snd]
    unfold StateMap.Restore
    simp [alookup_aerase]
  · unfold StateMap.Persist StateMap.Restore
    simp [alookup_ainsert]

/-! ## Callback scope reduction theorems (claims C2, C10) -/

/-- The append loop over the requested scopes is `List.filter`. -/
theorem grantedScopesLoop_eq_filter (valid : String → Bool)
    (l : List String) : grantedScopesLoop valid l = l.filter valid := by
  suffices h : ∀ acc : List String,
      l.foldl (fun acc scope => if valid scope then acc ++ [scope] else acc) acc
        = acc ++ l.filter valid by
    simpa [grantedScopesLoop] using h []
  induction l with
  | nil => intro acc; simp
  | cons x t ih =>
      intro acc
      by_cases hx : valid x <;> simp [List.filter_cons, hx, ih]

/-- Claim C2: at the IDP callback, the scope list minted into the
access token and the scope list placed in the success-redirect fragment
both equal the requested scopes filtered by membership in the user's
`ScopeSetFor` result (requested ∩ user-authorized), in the order of
`state.Scope` (a sublist) and without duplicates whenever the requested
list has none; a failing `ScopeSetFor` yields HTTP 500 (it is consulted
whenever at least one scope was requested). -/
theorem serveIDPCallback_scope_reduction (u : String → Bool) (e : String)
    (stateScope : List String) :
    serveIDPCallbackScopes (Except.ok u) stateScope
      = CallbackScopeOutcome.success (stateScope.filter u) (stateScope.filter u) ∧
    (∀ x, x ∈ stateScope.filter u ↔ x ∈ stateScope ∧ u x = true) ∧
    (stateScope.filter u).Sublist stateScope ∧
    (stateScope.Nodup → (stateScope.filter u).Nodup) ∧
    (0 < stateScope.length →
      serveIDPCallbackScopes (Except.error e) stateScope
        = CallbackScopeOutcome.internalServerError) := by
  refine ⟨?_, ?_, ?_, ?_, ?_⟩
  · by_cases h : 0 < stateScope.length
    · simp [serveIDPCallbackScopes, h, grantedScopesLoop_eq_filter]
    · have hnil : stateScope = [] := by
        cases stateScope with
        | nil => rfl
        | cons a t => exact absurd (by simp) h
      subst hnil
      simp [serveIDPCallbackScopes]
  · intro x; exact List.mem_filter
  · exact List.filter_sublist stateScope
  · exact fun h => h.filter u
  · intro h
    simp [serveIDPCallbackScopes, h]

/-- Claim C2 (witness): a requested scope list of length ≥ 1 with a
failing provider yields HTTP 500. -/
theorem serveIDPCallback_scope_reduction_witness :
    0 < (["scope:1", "scope:2"] : List String).length ∧
    serveIDPCallbackScopes (Except.error "boom") ["scope:1", "scope:2"]
      = CallbackScopeOutcome.internalServerError :=
  ⟨by decide,
    (serveIDPCallback_scope_reduction (fun s => s == "scope:1") "boom"
      ["scope:1", "scope:2"]).2.2.2.2 (by decide)⟩

/-- Claim C10: with an empty requested-scope list the callback handler
never consults `ScopeSetFor` — the outcome is the same for every
provider result, including a failing one — and it always continues with
an empty granted-scope list (so no 500 can originate from scope lookup
when no scope was requested). -/
theorem serveIDPCallback_empty_scope (p q : Except String (String → Bool)) :
    serveIDPCallbackScopes p [] = CallbackScopeOutcome.success [] [] ∧
    serveIDPCallbackScopes p [] = serveIDPCallbackScopes q [] :=
  ⟨rfl, rfl⟩

/-! ## Redirect URI matching theorems (claim C4) -/

/-- The matching loop selects the supplied URI whenever some pattern
matches (on an exact match the selected pattern equals the URI), and
the empty no-match sentinel otherwise. -/
theorem redirectLoop_eq (redirects : List (List Char)) (uri : List Char) :
    redirectLoop redirects uri
      = if redirects.any (fun p => redirectMatches p uri) then uri else [] := by
  induction redirects with
  | nil => rfl
  | cons p rest ih =>
      by_cases hstar : hasStarSuffix p
      · by_cases hpre : strHasPre p.dropLast uri
        · simp [redirectLoop, redirectMatches, hstar, hpre]
        · simp [redirectLoop, redirectMatches, hstar, hpre, ih]
      · by_cases heq : (uri == p) = true
        · have huri : uri = p := eq_of_beq heq
          subst huri
          simp [redirectLoop, redirectMatches, hstar, heq]
        · simp [redirectLoop, redirectMatches, hstar, heq, ih]

/-- Claim C4 (counterexample): the registered pattern `*` matches the
supplied redirect URI `""` (every string starts with the empty prefix),
yet the engine answers 400 "missing or invalid redirect_uri" instead of
selecting the first matching pattern, because the empty string is also
the internal no-match sentinel. -/
theorem serveRedirectURI_counterexample :
    redirectMatches ['*'] [] = true ∧
    serveRedirectURI [['*']] (some [])
      = RedirectOutcome.badRequest "missing or invalid redirect_uri" := by
  exact ⟨by decide, by decide⟩

/-- Claim C4 (amended): a wildcard pattern `PREFIX*` matches exactly
the URIs starting with `PREFIX` and a pattern not ending in `*` matches
only the equal URI; for a non-empty supplied URI the engine selects the
URI itself when some registered pattern matches it (the first match is
taken, and on an exact match the selected pattern equals the URI) and
answers 400 when none does — even when exactly one redirect is
registered, the default applies only when `redirect_uri` is absent; with
the parameter absent, a single non-empty registered redirect is
selected and any other registry size yields 400.  A supplied empty URI
is treated as unmatched (empty is the no-match sentinel). -/
theorem serveRedirectURI_characterization (redirects : List (List Char))
    (uri : List Char) :
    (∀ p, redirectMatches (p ++ ['*']) uri = strHasPre p uri) ∧
    (∀ p, hasStarSuffix p = false → redirectMatches p uri = (uri == p)) ∧
    (uri ≠ [] → redirects.any (fun p => redirectMatches p uri) = true →
      serveRedirectURI redirects (some uri) = RedirectOutcome.selected uri) ∧
    (redirects.any (fun p => redirectMatches p uri) = false →
      serveRedirectURI redirects (some uri)
        = RedirectOutcome.badRequest "missing or invalid redirect_uri") ∧
    (∀ r, redirects = [r] → r ≠ [] →
      serveRedirectURI redirects none = RedirectOutcome.selected r) ∧
    (redirects.length ≠ 1 →
      serveRedirectURI redirects none
        = RedirectOutcome.badRequest "missing or invalid redirect_uri") := by
  refine ⟨?_, ?_, ?_, ?_, ?_, ?_⟩
  · intro p
    have hc : p ++ ['*'] = p.concat '*' := (List.concat_eq_append p '*').symm
    rw [hc]
    simp [redirectMatches, hasStarSuffix, List.getLast?_concat,
      List.dropLast_concat]
  · intro p hp
    simp [redirectMatches, hp]
  · intro hne hany
    simp [serveRedirectURI, redirectLoop_eq, hany, hne]
  · intro hany
    simp [serveRedirectURI, redirectLoop_eq, hany]
  · intro r hr hne
    subst hr
    simp [serveRedirectURI, hne]
  · intro hlen
    simp [serveRedirectURI, hlen]

/-- Claim C4 (witness for the amended theorem). -/
theorem serveRedirectURI_characterization_witness :
    serveRedirectURI [['a', '*']] (some ['a', 'b'])
      = RedirectOutcome.selected ['a', 'b'] :=
  (serveRedirectURI_characterization [['a', '*']] ['a', 'b']).2.2.1
    (by decide) (by decide)

/-! ## Access-token claim theorems (claim C5) -/

/-- Claim C5: every successful `accessTokenEncoder.Encode` builds the
signed payload with `iss` the configured issuer, `sub` the subject,
`nbf = iat − 10`, `exp = iat + lifetime`, `jti` the freshly generated
UUID, and `scopes` the granted list passed in (`iat` being the clock
second at encoding time). -/
theorem accessTokenEncoder_payload_fields (issuer : String) (lifetime : Int)
    (subject : String) (scopes : List String) (now : Int) (jti : String) :
    (accessTokenEncoderPayload issuer lifetime subject scopes now jti).Issuer
        = issuer ∧
    (accessTokenEncoderPayload issuer lifetime subject scopes now jti).Subject
        = subject ∧
    (accessTokenEncoderPayload issuer lifetime subject scopes now jti).IssuedAt
        = now ∧
    (accessTokenEncoderPayload issuer lifetime subject scopes now jti).NotBefore
        = (accessTokenEncoderPayload issuer lifetime subject scopes now jti).IssuedAt
          - 10 ∧
    (accessTokenEncoderPayload issuer lifetime subject scopes now jti).ExpiresAt
        = (accessTokenEncoderPayload issuer lifetime subject scopes now jti).IssuedAt
          + lifetime ∧
    (accessTokenEncoderPayload issuer lifetime subject scopes now jti).JWTId
        = jti ∧
    (accessTokenEncoderPayload issuer lifetime subject scopes now jti).Scopes
        = scopes :=
  ⟨rfl, rfl, rfl, rfl, rfl, rfl, rfl⟩

/-! ## Base64 lemmas -/

/-- A valid codepoint below the surrogate range. -/
theorem isValidChar_of_lt_surrogate {n : Nat} (h : n < 55296) : n.isValidChar :=
  Or.inl h

/-- `toNat` of `ofNat` at a valid codepoint. -/
theorem charToNat_ofNat {n : Nat} (h : n.isValidChar) :
    (Char.ofNat n).toNat = n := by
  rw [Char.ofNat, dif_pos h]
  rfl

/-- Every character's codepoint is valid. -/
theorem char_toNat_isValid (c : Char) : c.toNat.isValidChar := c.valid

/-- The base64 alphabet decode inverts the encode on 6-bit groups. -/
theorem b64CharVal_b64Char : ∀ n, n < 64 → b64CharVal (b64Char n) = some n := by
  decide

/-- No 6-bit group encodes to a dot. -/
theorem b64Char_ne_dot (n : Nat) : b64Char n ≠ '.' := by
  have hdot : ('.' : Char).toNat = 46 := rfl
  unfold b64Char
  split_ifs with h1 h2 h3 h4
  · intro h
    have := congrArg Char.toNat h
    rw [charToNat_ofNat (isValidChar_of_lt_surrogate (by omega)), hdot] at this
    omega
  · intro h
    have := congrArg Char.toNat h
    rw [charToNat_ofNat (isValidChar_of_lt_surrogate (by omega)), hdot] at this
    omega
  · intro h
    have := congrArg Char.toNat h
    rw [charToNat_ofNat (isValidChar_of_lt_surrogate (by omega)), hdot] at this
    omega
  · decide
  · decide

/-- Base64url encoding never emits a dot. -/
theorem b64UrlEncode_no_dot : ∀ bs : List Nat, '.' ∉ b64UrlEncode bs
  | [] => by simp [b64UrlEncode]
  | [b0] => by
      simp [b64UrlEncode]
      exact ⟨Ne.symm (b64Char_ne_dot _), Ne.symm (b64Char_ne_dot _)⟩
  | [b0, b1] => by
      simp [b64UrlEncode]
      exact ⟨Ne.symm (b64Char_ne_dot _), Ne.symm (b64Char_ne_dot _),
        Ne.symm (b64Char_ne_dot _)⟩
  | b0 :: b1 :: b2 :: rest => by
      have ih := b64UrlEncode_no_dot rest
      simp [b64UrlEncode] at ih ⊢
      refine ⟨Ne.symm (b64Char_ne_dot _), Ne.symm (b64Char_ne_dot _),
        Ne.symm (b64Char_ne_dot _), Ne.symm (b64Char_ne_dot _), ?_⟩
      intro hmem
      exact ih hmem

/-- Base64url decoding inverts encoding on byte strings. -/
theorem b64UrlDecode_encode : ∀ bs : List Nat, (∀ b ∈ bs, b < 256) →
    b64UrlDecode (b64UrlEncode bs) = some bs
  | [], _ => rfl
  | [b0], hb => by
      have h0 : b0 < 256 := hb b0 (by simp)
      simp only [b64UrlEncode, b64UrlDecode]
      rw [b64CharVal_b64Char _ (by omega), b64CharVal_b64Char _ (by omega)]
      simp only [Option.some.injEq, List.cons.injEq, and_true]
      omega
  | [b0, b1], hb => by
      have h0 : b0 < 256 := hb b0 (by simp)
      have h1 : b1 < 256 := hb b1 (by simp)
      simp only [b64UrlEncode, b64UrlDecode]
      rw [b64CharVal_b64Char _ (by omega), b64CharVal_b64Char _ (by omega),
        b64CharVal_b64Char _ (by omega)]
      simp only [Option.some.injEq, List.cons.injEq, and_true]
      constructor
      · omega
      · omega
  | b0 :: b1 :: b2 :: rest, hb => by
      have h0 : b0 < 256 := hb b0 (by simp)
      have h1 : b1 < 256 := hb b1 (by simp)
      have h2 : b2 < 256 := hb b2 (by simp)
      have ih := b64UrlDecode_encode rest (fun b m => hb b (by simp [m]))
      simp only [b64UrlEncode, b64UrlDecode]
      rw [b64CharVal_b64Char _ (by omega), b64CharVal_b64Char _ (by omega),
        b64CharVal_b64Char _ (by omega), b64CharVal_b64Char _ (by omega), ih]
      simp only [Option.some.injEq, List.cons.injEq]
      refine ⟨by omega, by omega, by omega, ?_⟩
      simp

/-! ## Dot-splitting lemmas -/

/-- Splitting a dot-free string gives the single part. -/
theorem splitOnDot_no_dot : ∀ l : List Char, '.' ∉ l → splitOnDot l = [l]
  | [], _ => rfl
  | c :: rest, h => by
      have hc : ¬c = '.' := fun e => h (by simp [e])
      have ih := splitOnDot_no_dot rest (fun m => h (List.mem_cons_of_mem c m))
      simp [splitOnDot, hc, ih]

/-- Splitting past a dot-free first part peels it off. -/
theorem splitOnDot_append (a r : List Char) (ha : '.' ∉ a) :
    splitOnDot (a ++ '.' :: r) = a :: splitOnDot r := by
  induction a with
  | nil => simp [splitOnDot]
  | cons c t ih =>
      have hc : ¬c = '.' := fun e => ha (by simp [e])
      have ih' := ih (fun m => ha (List.mem_cons_of_mem c m))
      simp [splitOnDot, hc, ih']

/-- A three-part dot-joined string splits into its three parts. -/
theorem splitOnDot_three (a b c : List Char)
    (ha : '.' ∉ a) (hb : '.' ∉ b) (hc : '.' ∉ c) :
    splitOnDot (a ++ '.' :: (b ++ '.' :: c)) = [a, b, c] := by
  rw [splitOnDot_append a _ ha, splitOnDot_append b _ hb,
    splitOnDot_no_dot c hc]

/-! ## UTF-8 lemmas -/

/-- UTF-8 encoded bytes are bytes. -/
theorem utf8EncodeChar_lt (c : Char) : ∀ b ∈ utf8EncodeChar c, b < 256 := by
  have hv : c.toNat < 1114112 := by
    rcases char_toNat_isValid c with h | ⟨_, h2⟩
    · omega
    · omega
  unfold utf8EncodeChar
  split_ifs with h1 h2 h3 <;> intro b hb <;> simp at hb <;> omega

set_option maxHeartbeats 1600000 in
/-- UTF-8 decoding peels off one encoded character. -/
theorem utf8Decode_encodeChar (c : Char) (rest : List Nat) :
    utf8Decode (utf8EncodeChar c ++ rest)
      = (utf8Decode rest).map (fun cs => c :: cs) := by
  have hval := char_toNat_isValid c
  have hv : c.toNat < 55296 ∨ (57343 < c.toNat ∧ c.toNat < 1114112) := hval
  unfold utf8EncodeChar
  split_ifs with h1 h2 h3
  · rw [List.cons_append, List.nil_append]
    conv_lhs => rw [utf8Decode.eq_def]
    dsimp only
    rw [if_pos h1]
    simp only [Char.ofNat_toNat]
  · rw [List.cons_append, List.cons_append, List.nil_append]
    conv_lhs => rw [utf8Decode.eq_def]
    dsimp only
    rw [if_neg (by omega), if_neg (by omega), if_pos (by omega)]
    rw [utf8DecodeTail2.eq_def]
    dsimp only
    rw [if_pos (by omega)]
    have hn : (192 + c.toNat / 64 - 192) * 64 + (128 + c.toNat % 64 - 128)
        = c.toNat := by omega
    simp only [hn]
    rw [if_pos (by omega)]
    simp only [Char.ofNat_toNat]
  · rw [List.cons_append, List.cons_append, List.cons_append, List.nil_append]
    conv_lhs => rw [utf8Decode.eq_def]
    dsimp only
    rw [if_neg (by omega), if_neg (by omega), if_neg (by omega),
      if_pos (by omega)]
    rw [utf8DecodeTail3.eq_def]
    dsimp only
    rw [if_pos (by omega)]
    have hn : (224 + c.toNat / 4096 - 224) * 4096 +
        (128 + c.toNat / 64 % 64 - 128) * 64 + (128 + c.toNat % 64 - 128)
        = c.toNat := by omega
    simp only [hn]
    have hcond : 2048 ≤ c.toNat ∧ (c.toNat < 55296 ∨ 57343 < c.toNat) := by
      refine ⟨by omega, ?_⟩
      rcases hv with h | h
      · exact Or.inl (by omega)
      · exact Or.inr (by omega)
    rw [if_pos hcond]
    simp only [Char.ofNat_toNat]
  · rw [List.cons_append, List.cons_append, List.cons_append,
      List.cons_append, List.nil_append]
    conv_lhs => rw [utf8Decode.eq_def]
    dsimp only
    rw [if_neg (by omega), if_neg (by omega), if_neg (by omega),
      if_neg (by omega), if_pos (by omega)]
    rw [utf8DecodeTail4.eq_def]
    dsimp only
    rw [if_pos (by omega)]
    have hn : (240 + c.toNat / 262144 - 240) * 262144 +
        (128 + c.toNat / 4096 % 64 - 128) * 4096 +
        (128 + c.toNat / 64 % 64 - 128) * 64 + (128 + c.toNat % 64 - 128)
        = c.toNat := by omega
    simp only [hn]
    rw [if_pos (by rcases hv with h | h <;> omega)]
    simp only [Char.ofNat_toNat]

/-- UTF-8 decoding inverts encoding. -/
theorem utf8Decode_encode (s : List Char) :
    utf8Decode (utf8Encode s) = some s := by
  induction s with
  | nil => rw [utf8Encode]; rw [utf8Decode.eq_def]; rfl
  | cons c t ih =>
      have hflat : utf8Encode (c :: t) = utf8EncodeChar c ++ utf8Encode t := by
        simp [utf8Encode]
      rw [hflat, utf8Decode_encodeChar, ih]
      rfl

/-- UTF-8 encoded strings consist of bytes. -/
theorem utf8Encode_lt (s : List Char) : ∀ b ∈ utf8Encode s, b < 256 := by
  induction s with
  | nil => simp [utf8Encode]
  | cons c t ih =>
      have hflat : utf8Encode (c :: t) = utf8EncodeChar c ++ utf8Encode t := by
        simp [utf8Encode]
      rw [hflat]
      intro b hb
      rcases List.mem_append.1 hb with h | h
      · exact utf8EncodeChar_lt c b h
      · exact ih b h

/-! ## JSON header escaping lemmas -/

/-- Hex digit decode inverts encode. -/
theorem hexVal_hexDigit : ∀ n, n < 16 → hexVal (hexDigit n) = some n := by
  decide

/-- Parsing a `\uXXXX` escape yields the escaped character. -/
theorem parseJSONString_uEscape (n : Nat) (hn : n < 65536) (t : List Char) :
    parseJSONString (uEscape n ++ t)
      = (parseJSONString t).map (fun p => (Char.ofNat n :: p.1, p.2)) := by
  unfold uEscape
  rw [List.cons_append, List.cons_append, List.cons_append, List.cons_append,
    List.cons_append, List.cons_append, List.nil_append]
  conv_lhs => rw [parseJSONString.eq_def]
  dsimp only
  rw [if_neg (by decide), if_pos rfl]
  rw [if_neg (by decide), if_neg (by decide), if_neg (by decide),
    if_neg (by decide), if_neg (by decide), if_pos rfl]
  rw [hexVal_hexDigit _ (by omega), hexVal_hexDigit _ (by omega),
    hexVal_hexDigit _ (by omega), hexVal_hexDigit _ (by omega)]
  dsimp only
  have hrec : n / 4096 % 16 * 4096 + n / 256 % 16 * 256 + n / 16 % 16 * 16 +
      n % 16 = n := by omega
  simp only [hrec]

/-- Parsing after one escaped character peels that character off. -/
theorem parseJSONString_escapeChar (c : Char) (t : List Char) :
    parseJSONString (escapeJSONChar c ++ t)
      = (parseJSONString t).map (fun p => (c :: p.1, p.2)) := by
  unfold escapeJSONChar
  split_ifs with h1 h2 h3 h4 h5 h6 h7
  · subst h1
    rw [List.cons_append, List.cons_append, List.nil_append]
    conv_lhs => rw [parseJSONString.eq_def]
    dsimp only
    rw [if_neg (by decide), if_pos rfl, if_pos rfl]
  · subst h2
    rw [List.cons_append, List.cons_append, List.nil_append]
    conv_lhs => rw [parseJSONString.eq_def]
    dsimp only
    rw [if_neg (by decide), if_pos rfl, if_neg (by decide), if_pos rfl]
  · subst h3
    rw [List.cons_append, List.cons_append, List.nil_append]
    conv_lhs => rw [parseJSONString.eq_def]
    dsimp only
    rw [if_neg (by decide), if_pos rfl, if_neg (by decide),
      if_neg (by decide), if_pos rfl]
  · subst h4
    rw [List.cons_append, List.cons_append, List.nil_append]
    conv_lhs => rw [parseJSONString.eq_def]
    dsimp only
    rw [if_neg (by decide), if_pos rfl, if_neg (by decide),
      if_neg (by decide), if_neg (by decide), if_pos rfl]
  · subst h5
    rw [List.cons_append, List.cons_append, List.nil_append]
    conv_lhs => rw [parseJSONString.eq_def]
    dsimp only
    rw [if_neg (by decide), if_pos rfl, if_neg (by decide),
      if_neg (by decide), if_neg (by decide), if_neg (by decide), if_pos rfl]
  · rw [parseJSONString_uEscape _ ?_ t]
    · simp only [Char.ofNat_toNat]
    · rcases h6 with h | h | h | h
      · omega
      · subst h; decide
      · subst h; decide
      · subst h; decide
  · rw [parseJSONString_uEscape _ (by omega) t]
    simp only [Char.ofNat_toNat]
  · rw [List.cons_append, List.nil_append]
    conv_lhs => rw [parseJSONString.eq_def]
    dsimp only
    rw [if_neg h1, if_neg h2]

/-- Parsing an escaped string body up to the closing quote recovers it. -/
theorem parseJSONString_escape (s t : List Char) :
    parseJSONString (escapeJSON s ++ chQuote :: t) = some (s, t) := by
  induction s with
  | nil =>
      rw [escapeJSON]
      simp only [List.map_nil, List.flatten_nil, List.nil_append]
      rw [parseJSONString.eq_def]
      dsimp only
      rw [if_pos rfl]
  | cons c u ih =>
      have hflat : escapeJSON (c :: u) = escapeJSONChar c ++ escapeJSON u := by
        simp [escapeJSON]
      rw [hflat, List.append_assoc, parseJSONString_escapeChar, ih]
      rfl

/-- Consuming an expected literal succeeds on that literal. -/
theorem dropLit_append : ∀ lit l : List Char, dropLit lit (lit ++ l) = some l
  | [], l => rfl
  | a :: lit, l => by
      rw [List.cons_append, dropLit]
      rw [if_pos rfl]
      exact dropLit_append lit l

/-- The header parser inverts header marshalling. -/
theorem parseHeaderChars_jsonHeaderChars (alg kid : List Char) :
    parseHeaderChars (jsonHeaderChars alg kid) = some (alg, kid) := by
  have hshape : jsonHeaderChars alg kid
      = hdrPre ++ (escapeJSON alg ++ chQuote ::
          (hdrMid ++ (escapeJSON kid ++ chQuote :: [chRBrace]))) := by
    simp [jsonHeaderChars, List.append_assoc]
  unfold parseHeaderChars
  rw [hshape]
  rw [dropLit_append]
  simp only [Option.bind_eq_bind, Option.some_bind]
  rw [parseJSONString_escape]
  simp only [Option.some_bind]
  rw [dropLit_append]
  simp only [Option.some_bind]
  rw [parseJSONString_escape]
  simp only [Option.some_bind]
  simp

/-- The header byte parser inverts marshal + UTF-8 encode. -/
theorem parseHeaderBytes_jsonHeader (alg kid : List Char) :
    parseHeaderBytes (utf8Encode (jsonHeaderChars alg kid)) = some (alg, kid) := by
  unfold parseHeaderBytes
  rw [utf8Decode_encode]
  simp only [Option.bind_eq_bind, Option.some_bind]
  exact parseHeaderChars_jsonHeaderChars alg kid

/-! ## JWT round-trip (claim C3) -/

/-- Rebuilding a string from its characters is the identity. -/
theorem stringMk_data (s : String) : String.mk s.data = s := rfl

/-- Claim C3 (amended): for every key id that is a signer AND a
verifier in the loaded key set — i.e. its `key_ops` put it in both
tables — and every payload, `Decode(Encode(kid, payload))` succeeds and
returns the original payload, provided the verifier accepts the
signer's signatures (true for HMAC keys, where `Verify` recomputes the
same digest, and for ECDSA under the correctness of `crypto/ecdsa`).
The original claim quantified over every signer key; a signer-only key
(`key_ops: ["sign"]`) has no verifier-table entry, making `Decode` fail
with the unknown-verifier error. -/
theorem jwt_roundtrip (C : CryptoModel) (S : JWKSetM) (kid : String)
    (sg : SignerEntry) (vf : VerifierEntry) (payload : List Nat)
    (hs : alookup S.signers kid = some sg)
    (hv : alookup S.verifiers kid = some vf)
    (hpayload : ∀ b ∈ payload, b < 256)
    (hcompat : ∀ h p : List Char, ∃ d,
      signBytes C sg (strBytes (h ++ '.' :: p)) = some d ∧
      verifyB64 C vf h p (b64UrlEncode d) = true) :
    ∃ token, JWKSetM.Encode C S kid payload = Except.ok token ∧
      JWKSetM.Decode C S token = Except.ok payload := by
  obtain ⟨d, hsign, hverify⟩ := hcompat
    (b64UrlEncode (utf8Encode (jsonHeaderChars (signerAlg sg).data kid.data)))
    (b64UrlEncode payload)
  refine ⟨b64UrlEncode (utf8Encode (jsonHeaderChars (signerAlg sg).data kid.data))
    ++ '.' :: b64UrlEncode payload ++ '.' :: b64UrlEncode d, ?_, ?_⟩
  · unfold JWKSetM.Encode
    rw [hs]
    dsimp only
    rw [hsign]
  · unfold JWKSetM.Decode
    have hcanon : b64UrlEncode (utf8Encode (jsonHeaderChars (signerAlg sg).data
          kid.data)) ++ '.' :: b64UrlEncode payload ++ '.' :: b64UrlEncode d
        = b64UrlEncode (utf8Encode (jsonHeaderChars (signerAlg sg).data kid.data))
          ++ '.' :: (b64UrlEncode payload ++ '.' :: b64UrlEncode d) := by
      simp [List.append_assoc]
    rw [hcanon, splitOnDot_three _ _ _ (b64UrlEncode_no_dot _)
      (b64UrlEncode_no_dot _) (b64UrlEncode_no_dot _)]
    dsimp only
    rw [b64UrlDecode_encode _ (utf8Encode_lt _)]
    dsimp only
    rw [parseHeaderBytes_jsonHeader]
    dsimp only
    rw [stringMk_data, hv]
    dsimp only
    rw [hverify, if_pos rfl]
    rw [b64UrlDecode_encode payload hpayload]

/-- Claim C3 (counterexample): a symmetric key declared with
`key_ops: ["sign"]` loads successfully and is a signer, `Encode`
succeeds under it, but `Decode` of the resulting token fails (no
verifier-table entry for the kid), so `Decode(Encode(kid, payload))`
does not succeed for every signer key of a loaded key set. -/
theorem jwt_roundtrip_counterexample :
    LoadJWKSet (some [signOnlyOctKey]) = Except.ok signOnlySet ∧
    (alookup signOnlySet.signers "1").isSome = true ∧
    exceptIsOk (JWKSetM.Encode cryptoFix signOnlySet "1" [1, 2, 3]) = true ∧
    exceptIsOk (JWKSetM.Decode cryptoFix signOnlySet
        ((exceptToOption
          (JWKSetM.Encode cryptoFix signOnlySet "1" [1, 2, 3])).getD []))
      = false := by
  refine ⟨by decide, by decide, by decide, by decide⟩

/-- Claim C3 (witness for the amended theorem): a symmetric key loaded
into both tables round-trips a payload. -/
theorem jwt_roundtrip_witness :
    ∃ token,
      JWKSetM.Encode cryptoFix signVerifySet "1" [1, 2, 3] = Except.ok token ∧
      JWKSetM.Decode cryptoFix signVerifySet token = Except.ok [1, 2, 3] :=
  jwt_roundtrip cryptoFix signVerifySet "1" (SignerEntry.sym signVerifyKey)
    (VerifierEntry.sym signVerifyKey) [1, 2, 3] (by decide) (by decide)
    (by decide)
    (fun h p => ⟨_, rfl, by simp [verifyB64, jwkSymVerify]⟩)

/-! ## EC signature layout (claim C6) -/

/-- `SetBytes` over an appended low byte. -/
theorem beNat_append_single (l : List Nat) (b : Nat) :
    beNat (l ++ [b]) = beNat l * 256 + b := by
  simp [beNat, List.foldl_append]

/-- `SetBytes` inverts `Bytes`. -/
theorem beNat_natBytesBE (n : Nat) : beNat (natBytesBE n) = n := by
  induction n using Nat.strong_induction_on with
  | _ n ih =>
      match n with
      | 0 => rw [natBytesBE]; rfl
      | m + 1 =>
          rw [natBytesBE, beNat_append_single,
            ih ((m + 1) / 256) (Nat.div_lt_self (Nat.succ_pos m) (by norm_num))]
          omega

/-- Numbers below `256^l` need at most `l` big-endian bytes. -/
theorem natBytesBE_length_le : ∀ l n : Nat, n < 256 ^ l →
    (natBytesBE n).length ≤ l := by
  intro l
  induction l with
  | zero =>
      intro n h
      have hn : n = 0 := by simpa using h
      subst hn
      rw [natBytesBE]
      simp
  | succ l ih =>
      intro n h
      match n with
      | 0 => rw [natBytesBE]; simp
      | m + 1 =>
          rw [natBytesBE]
          have hdiv : (m + 1) / 256 < 256 ^ l := by
            apply Nat.div_lt_of_lt_mul
            rw [← pow_succ']
            exact h
          have := ih ((m + 1) / 256) hdiv
          simp only [List.length_append, List.length_cons, List.length_nil]
          omega

/-- Leading zero padding does not change `SetBytes`. -/
theorem beNat_replicate_zero (k : Nat) (bs : List Nat) :
    beNat (List.replicate k 0 ++ bs) = beNat bs := by
  induction k with
  | zero => simp
  | succ k ih =>
      rw [List.replicate_succ, List.cons_append]
      show beNat (0 :: (List.replicate k 0 ++ bs)) = beNat bs
      rw [← ih]
      simp [beNat]

/-- Length of the left-padded half. -/
theorem leftPadZero_length (l : Nat) (bs : List Nat) (h : bs.length ≤ l) :
    (leftPadZero l bs).length = l := by
  simp [leftPadZero]
  omega

/-- Claim C6: for every EC signing key (curves P-256/P-384/P-521, i.e.
ES256/ES384/ES512) and every produced ECDSA pair `(r, s)` (each below
`256^half-length`, as guaranteed by the curve group order), `Sign`
succeeds and emits exactly `SigLength` bytes — 64, 96 or 132 for the
three curves — formed as `R ‖ S`, each half left-padded with zero bytes
to 32/48/66 bytes and decoding back to `r` and `s`. -/
theorem jwkECPrivSign_sig_layout (C : CryptoModel) (k : ECPrivData)
    (msg : List Nat) (r s : Nat)
    (hrs : C.ecSignRS k msg = (r, s))
    (hr : r < 256 ^ (sigLengthOf k.pub.curve / 2))
    (hsb : s < 256 ^ (sigLengthOf k.pub.curve / 2)) :
    ∃ sig, jwkECPrivSign C k msg = some sig ∧
      sig.length = sigLengthOf k.pub.curve ∧
      sig = leftPadZero (sigLengthOf k.pub.curve / 2) (natBytesBE r) ++
        leftPadZero (sigLengthOf k.pub.curve / 2) (natBytesBE s) ∧
      beNat (sig.take (sigLengthOf k.pub.curve / 2)) = r ∧
      beNat (sig.drop (sigLengthOf k.pub.curve / 2)) = s ∧
      sigLengthOf ECCurve.P256 = 64 ∧ sigLengthOf ECCurve.P384 = 96 ∧
      sigLengthOf ECCurve.P521 = 132 ∧
      ecAlgName ECCurve.P256 = "ES256" ∧ ecAlgName ECCurve.P384 = "ES384" ∧
      ecAlgName ECCurve.P521 = "ES512" := by
  have hrl := natBytesBE_length_le _ _ hr
  have hsl := natBytesBE_length_le _ _ hsb
  have htake : (leftPadZero (sigLengthOf k.pub.curve / 2) (natBytesBE r) ++
      leftPadZero (sigLengthOf k.pub.curve / 2) (natBytesBE s)).take
        (sigLengthOf k.pub.curve / 2)
      = leftPadZero (sigLengthOf k.pub.curve / 2) (natBytesBE r) :=
    List.take_left' (leftPadZero_length _ _ hrl)
  have hdrop : (leftPadZero (sigLengthOf k.pub.curve / 2) (natBytesBE r) ++
      leftPadZero (sigLengthOf k.pub.curve / 2) (natBytesBE s)).drop
        (sigLengthOf k.pub.curve / 2)
      = leftPadZero (sigLengthOf k.pub.curve / 2) (natBytesBE s) :=
    List.drop_left' (leftPadZero_length _ _ hrl)
  refine ⟨ecSigEncode (sigLengthOf k.pub.curve / 2) r s, ?_, ?_, rfl, ?_, ?_,
    rfl, rfl, rfl, rfl, rfl, rfl⟩
  · unfold jwkECPrivSign
    rw [hrs]
    dsimp only
    rw [if_pos ⟨hrl, hsl⟩]
  · unfold ecSigEncode
    rw [List.length_append, leftPadZero_length _ _ hrl,
      leftPadZero_length _ _ hsl]
    cases k.pub.curve <;> rfl
  · unfold ecSigEncode
    rw [htake]
    unfold leftPadZero
    rw [beNat_replicate_zero, beNat_natBytesBE]
  · unfold ecSigEncode
    rw [hdrop]
    unfold leftPadZero
    rw [beNat_replicate_zero, beNat_natBytesBE]

/-- Claim C6 (witness): a concrete P-256 signature of 64 bytes. -/
theorem jwkECPrivSign_sig_layout_witness :
    ∃ sig, jwkECPrivSign cryptoFix ⟨⟨ECCurve.P256, 0, 0⟩, 0⟩ [] = some sig ∧
      sig.length = sigLengthOf ECCurve.P256 :=
  match jwkECPrivSign_sig_layout cryptoFix ⟨⟨ECCurve.P256, 0, 0⟩, 0⟩ [] 1 1
    rfl (by decide) (by decide) with
  | ⟨sig, h1, h2, _⟩ => ⟨sig, h1, h2⟩

/-! ## LoadJWKSet failure conditions (claim C7) -/

/-- `unmarshalJWKSymmetric` fails exactly on `symBad`. -/
theorem unmarshalJWKSymmetricM_isOk (j : JWKInputM) :
    exceptIsOk (unmarshalJWKSymmetricM j) = !symBad j := by
  unfold unmarshalJWKSymmetricM symBad b64FieldBad
  cases h1 : hAlgOf j.alg <;> cases h2 : b64PadUrlDecode j.k.data <;>
    simp [exceptIsOk, h1, h2]

/-- `unmarshalJWKECPub` fails exactly on `ecPubBad`. -/
theorem unmarshalJWKECPubM_isOk (j : JWKInputM) :
    exceptIsOk (unmarshalJWKECPubM j) = !ecPubBad j := by
  unfold unmarshalJWKECPubM ecPubBad b64FieldBad
  cases h1 : curveOf j.crv <;> cases h2 : b64PadUrlDecode j.x.data <;>
    cases h3 : b64PadUrlDecode j.y.data <;> simp [exceptIsOk, h1, h2, h3]

/-- `unmarshalJWKECPriv` fails exactly on `ecPrivBad`. -/
theorem unmarshalJWKECPrivM_isOk (j : JWKInputM) :
    exceptIsOk (unmarshalJWKECPrivM j) = !ecPrivBad j := by
  have hpub := unmarshalJWKECPubM_isOk j
  unfold unmarshalJWKECPrivM ecPrivBad b64FieldBad
  unfold ecPubBad b64FieldBad at hpub
  cases h1 : curveOf j.crv <;> cases h2 : b64PadUrlDecode j.d.data <;>
    cases h3 : unmarshalJWKECPubM j <;> rw [h3] at hpub <;>
    simp [exceptIsOk, h1, h2] at hpub ⊢ <;> exact hpub

/-- The EC key-ops loop fails exactly on an unknown op, or a failing
private-key unmarshal for a `sign` op, or a failing public-key
unmarshal for a `verify` op. -/
theorem loadECOps_isOk (j : JWKInputM) : ∀ (ops : List String) (acc : JWKSetM),
    exceptIsOk (loadECOps j acc ops)
      = !(ops.any opUnknown || (ops.contains "sign" && ecPrivBad j) ||
          (ops.contains "verify" && ecPubBad j)) := by
  intro ops
  induction ops with
  | nil => intro acc; simp [loadECOps, exceptIsOk]
  | cons op rest ih =>
      intro acc
      by_cases hsign : op = "sign"
      · subst hsign
        rw [loadECOps]
        rw [if_pos rfl]
        cases hp : unmarshalJWKECPrivM j with
        | error e =>
            have hb := unmarshalJWKECPrivM_isOk j
            rw [hp] at hb
            simp [exceptIsOk] at hb
            simp [exceptIsOk, List.any_cons, List.contains_cons, opUnknown, hb]
        | ok key =>
            have hb := unmarshalJWKECPrivM_isOk j
            rw [hp] at hb
            simp [exceptIsOk] at hb
            rw [ih]
            simp [List.any_cons, List.contains_cons, opUnknown, hb]
      · by_cases hver : op = "verify"
        · subst hver
          rw [loadECOps]
          rw [if_neg hsign, if_pos rfl]
          cases hp : unmarshalJWKECPubM j with
          | error e =>
              have hb := unmarshalJWKECPubM_isOk j
              rw [hp] at hb
              simp [exceptIsOk] at hb
              simp [exceptIsOk, List.any_cons, List.contains_cons, opUnknown, hb]
          | ok key =>
              have hb := unmarshalJWKECPubM_isOk j
              rw [hp] at hb
              simp [exceptIsOk] at hb
              rw [ih]
              simp [List.any_cons, List.contains_cons, opUnknown, hb]
        · rw [loadECOps]
          rw [if_neg hsign, if_neg hver]
          simp [exceptIsOk, List.any_cons, List.contains_cons, opUnknown,
            hsign, hver]

/-- The oct key-ops loop never touches the key-id list. -/
theorem loadOctOps_kids (j : JWKInputM) (key : SymKeyData) :
    ∀ (ops : List String) (acc : JWKSetM),
    (loadOctOps j key acc ops).kids = acc.kids := by
  intro ops
  induction ops with
  | nil => intro acc; rfl
  | cons op rest ih =>
      intro acc
      rw [loadOctOps]
      by_cases hsign : op = "sign"
      · rw [if_pos hsign]; exact ih _
      · rw [if_neg hsign]
        by_cases hver : op = "verify"
        · rw [if_pos hver]; exact ih _
        · rw [if_neg hver]; exact ih _

/-- The EC key-ops loop never touches the key-id list. -/
theorem loadECOps_kids (j : JWKInputM) : ∀ (ops : List String) (acc : JWKSetM)
    (S : JWKSetM), loadECOps j acc ops = Except.ok S → S.kids = acc.kids := by
  intro ops
  induction ops with
  | nil =>
      intro acc S h
      simp [loadECOps] at h
      rw [← h]
  | cons op rest ih =>
      intro acc S h
      rw [loadECOps] at h
      by_cases hsign : op = "sign"
      · rw [if_pos hsign] at h
        cases hp : unmarshalJWKECPrivM j with
        | error e => rw [hp] at h; exact absurd h (by simp)
        | ok key =>
            rw [hp] at h
            dsimp only at h
            have h2 := ih _ _ h
            exact h2
      · rw [if_neg hsign] at h
        by_cases hver : op = "verify"
        · rw [if_pos hver] at h
          cases hp : unmarshalJWKECPubM j with
          | error e => rw [hp] at h; exact absurd h (by simp)
          | ok key =>
              rw [hp] at h
              dsimp only at h
              have h2 := ih _ _ h
              exact h2
        · rw [if_neg hver] at h
          exact absurd h (by simp)

/-- One key-loop iteration fails exactly on a bad key or duplicate id. -/
theorem loadJWK_isOk (acc : JWKSetM) (j : JWKInputM) :
    exceptIsOk (loadJWK acc j)
      = !(jwkBad j || decide (j.kid ∈ acc.kids)) := by
  unfold loadJWK jwkBad
  by_cases hops : j.keyOps.length = 0
  · rw [if_pos hops]
    have hempty : j.keyOps.isEmpty = true := by
      cases hKO : j.keyOps with
      | nil => rfl
      | cons a t => rw [hKO] at hops; simp at hops
    simp [exceptIsOk, hempty]
  · rw [if_neg hops]
    have hempty : j.keyOps.isEmpty = false := by
      cases hKO : j.keyOps with
      | nil => rw [hKO] at hops; simp at hops
      | cons a t => rfl
    by_cases hmem : j.kid ∈ acc.kids
    · rw [if_pos hmem]
      simp [exceptIsOk, hmem]
    · rw [if_neg hmem]
      by_cases hec : j.kty = "EC"
      · rw [if_pos hec]
        rw [loadECOps_isOk]
        simp [hempty, hec, hmem]
      · rw [if_neg hec]
        by_cases hoct : j.kty = "oct"
        · rw [if_pos hoct]
          cases hu : unmarshalJWKSymmetricM j with
          | error e =>
              have hb := unmarshalJWKSymmetricM_isOk j
              rw [hu] at hb
              simp [exceptIsOk] at hb
              simp [exceptIsOk, hempty, hec, hoct, hmem, hb]
          | ok key =>
              have hb := unmarshalJWKSymmetricM_isOk j
              rw [hu] at hb
              simp [exceptIsOk] at hb
              simp [exceptIsOk, hempty, hec, hoct, hmem, hb]
        · rw [if_neg hoct]
          simp [exceptIsOk, hempty, hec, hoct]

/-- A successful key-loop iteration appends exactly the key id. -/
theorem loadJWK_kids (acc : JWKSetM) (j : JWKInputM) (S : JWKSetM)
    (h : loadJWK acc j = Except.ok S) : S.kids = acc.kids ++ [j.kid] := by
  unfold loadJWK at h
  by_cases hops : j.keyOps.length = 0
  · rw [if_pos hops] at h; exact absurd h (by simp)
  · rw [if_neg hops] at h
    by_cases hmem : j.kid ∈ acc.kids
    · rw [if_pos hmem] at h; exact absurd h (by simp)
    · rw [if_neg hmem] at h
      by_cases hec : j.kty = "EC"
      · rw [if_pos hec] at h
        exact loadECOps_kids j _ _ _ h
      · rw [if_neg hec] at h
        by_cases hoct : j.kty = "oct"
        · rw [if_pos hoct] at h
          cases hu : unmarshalJWKSymmetricM j with
          | error e => rw [hu] at h; exact absurd h (by simp)
          | ok key =>
              rw [hu] at h
              have := loadOctOps_kids j key j.keyOps
                { acc with kids := acc.kids ++ [j.kid] }
              simp only [Except.ok.injEq] at h
              rw [← h]
              exact this
        · rw [if_neg hoct] at h
          exact absurd h (by simp)

/-- The key loop fails exactly when some key is bad or a key id repeats
(relative to the ids already seen). -/
theorem loadJWKs_isOk_false : ∀ (keys : List JWKInputM) (acc : JWKSetM),
    (exceptIsOk (loadJWKs keys acc) = false
      ↔ (keys.any jwkBad || dupKids acc.kids keys) = true) := by
  intro keys
  induction keys with
  | nil => intro acc; simp [loadJWKs, dupKids, exceptIsOk]
  | cons j rest ih =>
      intro acc
      rw [loadJWKs]
      cases hl : loadJWK acc j with
      | error e =>
          have hfa := loadJWK_isOk acc j
          rw [hl] at hfa
          simp [exceptIsOk] at hfa
          simp [exceptIsOk, List.any_cons, dupKids]
          by_cases hbad : jwkBad j = true
          · simp [hbad]
          · have hmem : j.kid ∈ acc.kids := hfa (by simpa using hbad)
            simp [hmem]
      | ok acc' =>
          have hfa := loadJWK_isOk acc j
          rw [hl] at hfa
          simp [exceptIsOk] at hfa
          have hk := loadJWK_kids acc j acc' hl
          rw [ih acc', hk]
          simp [List.any_cons, dupKids, hfa.1, hfa.2]

/-- Claim C7 (amended): `LoadJWKSet` fails iff the JSON is malformed,
or some key id occurs twice, or some key is bad — where a key is bad
when it lacks `key_ops`; or its type is neither `oct` nor `EC`; or it
is an `oct` key whose `alg` is not `HS256/384/512` or whose `k` is not
valid padded base64; or it is an `EC` key with a `key_ops` entry other
than `sign`/`verify`, or with a failing private-key load for a `sign`
op (curve not `P-256/384/521` or `d`/`x`/`y` not valid base64), or a
failing public-key load for a `verify` op (curve or `x`/`y`).  Unknown
`key_ops` entries on `oct` keys are ignored, and base64-invalid key
material is a failure the original claim did not list. -/
theorem LoadJWKSet_error_conditions :
    exceptIsOk (LoadJWKSet none) = false ∧
    ∀ keys : List JWKInputM,
      (exceptIsOk (LoadJWKSet (some keys)) = false
        ↔ (keys.any jwkBad || dupKids [] keys) = true) := by
  refine ⟨rfl, ?_⟩
  intro keys
  unfold LoadJWKSet
  have h := loadJWKs_isOk_false keys ⟨[], [], []⟩
  exact h

/-- Claim C7 (counterexample): an `oct` key whose only declared
`key_ops` entry is `encrypt` — neither `sign` nor `verify` — loads
without error, contradicting the claim that any such entry fails for
keys of any type. -/
theorem LoadJWKSet_counterexample :
    exceptIsOk (LoadJWKSet (some [encryptOpOctKey])) = true ∧
    (∃ op ∈ encryptOpOctKey.keyOps, op ≠ "sign" ∧ op ≠ "verify") := by
  constructor
  · decide
  · exact ⟨"encrypt", by decide, by decide, by decide⟩
